import Mathlib

/-!
Verification of the delta-sync cache engine of the ynab-mcp-server
repository.  The definitions below are a shallow embedding of
src/cache/payees.ts, src/cache/categories.ts and src/cache/index.ts:
pure merge logic is translated directly, and the filesystem / remote
API boundaries are made explicit parameters (a FileState value for the
cache file, an Except-valued function for the remote call).
-/

namespace YnabSpec

/-- Models the JavaScript expression x || null applied to an optional
string field: both a missing value and an empty string collapse to null. -/
def jsOrNull (x : Option String) : Option String :=
  match x with
  | some s => if s = "" then none else some s
  | none => none

/-- Models the JavaScript expression x || null applied to an optional
numeric field: both a missing value and 0 collapse to null. -/
def jsOrNullInt (x : Option Int) : Option Int :=
  match x with
  | some n => if n = 0 then none else some n
  | none => none

/-- Payee record as returned by the remote API (ynab Payee). -/
structure RespPayee where
  id : String
  name : String
  deleted : Bool
  transfer_account_id : Option String
  deriving DecidableEq, Repr

/-- Response of api.payees.getPayees: entity list plus new cursor. -/
structure PayeesResponse where
  server_knowledge : Nat
  payees : List RespPayee
  deriving DecidableEq, Repr

/-- CachedPayee interface from src/cache/payees.ts. -/
structure CachedPayee where
  id : String
  name : String
  deleted : Bool
  transfer_account_id : Option String
  deriving DecidableEq, Repr

/-- PayeesCache interface from src/cache/payees.ts. -/
structure PayeesCache where
  server_knowledge : Nat
  last_synced : String
  payees : List CachedPayee
  deriving DecidableEq, Repr

/-- SyncStats interface from src/cache/payees.ts. -/
structure SyncStats where
  total : Nat
  new : Nat
  updated : Nat
  deleted : Nat
  deriving DecidableEq, Repr

/-- Conversion of a response payee into a cached payee, as written at
both cache-construction sites of syncPayees (note the || null on
transfer_account_id). -/
def toCachedPayee (p : RespPayee) : CachedPayee :=
  { id := p.id
    name := p.name
    deleted := p.deleted
    transfer_account_id := jsOrNull p.transfer_account_id }

/-- Core list operation of the merge loops in syncPayees and
syncCategories: findIndex by id, then either replace the first record
carrying the incoming id (returning the replaced record) or push the
incoming record at the end (returning none). -/
def findReplace (idOf : α → String) (x : α) : List α → Option α × List α
  | [] => (none, [x])
  | p :: rest =>
    if idOf p = idOf x then (some p, x :: rest)
    else
      let r := findReplace idOf x rest
      (r.1, p :: r.2)

/-- Linear lookup by id: the first record whose id is i, if any.  This is
the cache.payees.findIndex access pattern re-expressed as a lookup. -/
def lookupById (idOf : α → String) (i : String) : List α → Option α
  | [] => none
  | p :: rest => if idOf p = i then some p else lookupById idOf i rest

/-- One iteration of the merge loop of syncPayees (the body of
for const payee of response.data.payees, in the existing-cache branch):
an existing payee is overwritten (counting a false-to-true deleted
transition as deleted, any non-deleted incoming record as updated), a
missing payee is appended and counted as new. -/
def mergePayeeStep (acc : List CachedPayee × SyncStats) (payee : RespPayee) :
    List CachedPayee × SyncStats :=
  match findReplace (fun p => p.id) (toCachedPayee payee) acc.1 with
  | (some old, l) =>
    if payee.deleted && !old.deleted then
      (l, { acc.2 with deleted := acc.2.deleted + 1 })
    else if !payee.deleted then
      (l, { acc.2 with updated := acc.2.updated + 1 })
    else
      (l, acc.2)
  | (none, l) => (l, { acc.2 with new := acc.2.new + 1 })

/-- Initial stats object of syncPayees. -/
def initPayeeStats : SyncStats :=
  { total := 0, new := 0, updated := 0, deleted := 0 }

/-- Pure core of syncPayees from src/cache/payees.ts: given the cache
read from disk (existing), the remote response and the current
timestamp, produce the merged cache and the sync statistics.  The
stats.total field is filled with the active count of the final cache
in both branches, exactly as in the source. -/
def syncPayeesPure (existing : Option PayeesCache) (resp : PayeesResponse)
    (now : String) : PayeesCache × SyncStats :=
  match existing with
  | some ex =>
    let m := resp.payees.foldl mergePayeeStep (ex.payees, initPayeeStats)
    let cache : PayeesCache :=
      { server_knowledge := resp.server_knowledge
        last_synced := now
        payees := m.1 }
    (cache, { m.2 with total := (cache.payees.filter (fun p => !p.deleted)).length })
  | none =>
    let cache : PayeesCache :=
      { server_knowledge := resp.server_knowledge
        last_synced := now
        payees := resp.payees.map toCachedPayee }
    (cache,
      { initPayeeStats with
          new := (resp.payees.filter (fun p => !p.deleted)).length
          total := (cache.payees.filter (fun p => !p.deleted)).length })

/-- State of one cache file on disk: missing, present but unreadable or
unparseable, or present with a parsed value. -/
inductive FileState (α : Type) where
  | missing : FileState α
  | corrupt : FileState α
  | stored : α → FileState α
  deriving DecidableEq, Repr

/-- readCache from src/cache/index.ts: a missing file yields undefined,
and any read or parse error is caught and also yields undefined; only a
well-formed file yields a value. -/
def readCache (fs : FileState α) : Option α :=
  match fs with
  | .missing => none
  | .corrupt => none
  | .stored c => some c

/-- syncPayees with its effects explicit: the cache is read from fs, the
remote call receives the cached cursor (or none), a failed remote call
propagates before any write happens, and a successful merge is written
back wholesale.  Returns the result (or the propagated error) together
with the cache file state after the call. -/
def syncPayees (fs : FileState PayeesCache)
    (remote : Option Nat → Except String PayeesResponse) (now : String) :
    Except String (PayeesCache × SyncStats) × FileState PayeesCache :=
  let existing := readCache fs
  match remote (existing.map (fun c => c.server_knowledge)) with
  | .error e => (.error e, fs)
  | .ok resp =>
    let r := syncPayeesPure existing resp now
    (.ok r, .stored r.1)

/-- deleteCache from src/cache/index.ts with its filesystem effects made
explicit: if the file exists the unlink call is attempted, and a raised
unlink error is caught (logged) and reported as false; a missing file
reports false without touching the filesystem. -/
def deleteCache (fileExists : Bool) (unlink : Except String Unit) : Bool :=
  if fileExists then
    match unlink with
    | .ok _ => true
    | .error _ => false
  else false

/-- Tests whether the character list sub occurs at the start of s, the
helper for the JavaScript String.includes model. -/
def leadsWith : List Char → List Char → Bool
  | _, [] => true
  | [], _ :: _ => false
  | c :: cs, d :: ds => (c = d) && leadsWith cs ds

/-- Tests whether the character list sub occurs contiguously anywhere in
s (JavaScript String.includes on the underlying characters). -/
def containsSeq : List Char → List Char → Bool
  | [], sub => sub.isEmpty
  | c :: rest, sub => leadsWith (c :: rest) sub || containsSeq rest sub

/-- Models the JavaScript s.includes(sub) on strings. -/
def jsIncludes (s sub : String) : Bool :=
  containsSeq s.toList sub.toList

/-- Models the JavaScript s.toLowerCase(): every character is lowered
independently. -/
def jsToLower (s : String) : String :=
  String.mk (s.data.map Char.toLower)

/-- searchPayeesInCache from src/cache/payees.ts: lowercase the query,
keep non-deleted payees whose lowercased name contains it. -/
def searchPayeesInCache (cache : PayeesCache) (query : String) :
    List CachedPayee :=
  let searchLower := jsToLower query
  (cache.payees.filter (fun p => !p.deleted)).filter
    (fun p => jsIncludes (jsToLower p.name) searchLower)

/-- Category record as returned inside a group by the remote API. -/
structure RespCategory where
  id : String
  name : String
  category_group_id : String
  hidden : Bool
  deleted : Bool
  note : Option String
  budgeted : Int
  activity : Int
  balance : Int
  goal_type : Option String
  goal_percentage_complete : Option Int
  deriving DecidableEq, Repr

/-- Category group record as returned by the remote API, with its nested
category list. -/
structure RespCategoryGroup where
  id : String
  name : String
  hidden : Bool
  deleted : Bool
  categories : List RespCategory
  deriving DecidableEq, Repr

/-- Response of api.categories.getCategories: group list (with nested
categories) plus new cursor. -/
structure CategoriesResponse where
  server_knowledge : Nat
  category_groups : List RespCategoryGroup
  deriving DecidableEq, Repr

/-- Cached category group record from src/cache/categories.ts. -/
structure CachedCategoryGroup where
  id : String
  name : String
  hidden : Bool
  deleted : Bool
  deriving DecidableEq, Repr

/-- Cached category record from src/cache/categories.ts, carrying the
denormalized group name. -/
structure CachedCategory where
  id : String
  name : String
  category_group_id : String
  category_group_name : String
  hidden : Bool
  deleted : Bool
  note : Option String
  budgeted : Int
  activity : Int
  balance : Int
  goal_type : Option String
  goal_percentage_complete : Option Int
  deriving DecidableEq, Repr

/-- CategoriesCache record from src/cache/categories.ts. -/
structure CategoriesCache where
  server_knowledge : Nat
  last_synced : String
  category_groups : List CachedCategoryGroup
  categories : List CachedCategory
  deriving DecidableEq, Repr

/-- CategorySyncStats record from src/cache/categories.ts. -/
structure CategorySyncStats where
  total_groups : Nat
  total_categories : Nat
  new_groups : Nat
  updated_groups : Nat
  deleted_groups : Nat
  new_categories : Nat
  updated_categories : Nat
  deleted_categories : Nat
  deriving DecidableEq, Repr

/-- Conversion of a response group into a cached group, as written at
both cache-construction sites of syncCategories. -/
def toCachedGroup (g : RespCategoryGroup) : CachedCategoryGroup :=
  { id := g.id, name := g.name, hidden := g.hidden, deleted := g.deleted }

/-- Conversion of a response category into a cached category: the
denormalized category_group_name is set from the name of the enclosing
response group, and the || null coercions of the source are applied to
note, goal_type and goal_percentage_complete. -/
def toCachedCategory (groupName : String) (c : RespCategory) : CachedCategory :=
  { id := c.id
    name := c.name
    category_group_id := c.category_group_id
    category_group_name := groupName
    hidden := c.hidden
    deleted := c.deleted
    note := jsOrNull c.note
    budgeted := c.budgeted
    activity := c.activity
    balance := c.balance
    goal_type := jsOrNull c.goal_type
    goal_percentage_complete := jsOrNullInt c.goal_percentage_complete }

/-- One iteration of the group merge in syncCategories: same shape as
the payee merge, updating the group counters. -/
def mergeGroupStep (acc : List CachedCategoryGroup × CategorySyncStats)
    (group : RespCategoryGroup) :
    List CachedCategoryGroup × CategorySyncStats :=
  match findReplace (fun g => g.id) (toCachedGroup group) acc.1 with
  | (some old, l) =>
    if group.deleted && !old.deleted then
      (l, { acc.2 with deleted_groups := acc.2.deleted_groups + 1 })
    else if !group.deleted then
      (l, { acc.2 with updated_groups := acc.2.updated_groups + 1 })
    else
      (l, acc.2)
  | (none, l) => (l, { acc.2 with new_groups := acc.2.new_groups + 1 })

/-- One iteration of the inner category merge in syncCategories,
processing one response category nested under a group whose name is
groupName. -/
def mergeCategoryStep (groupName : String)
    (acc : List CachedCategory × CategorySyncStats) (category : RespCategory) :
    List CachedCategory × CategorySyncStats :=
  match findReplace (fun c => c.id) (toCachedCategory groupName category) acc.1 with
  | (some old, l) =>
    if category.deleted && !old.deleted then
      (l, { acc.2 with deleted_categories := acc.2.deleted_categories + 1 })
    else if !category.deleted then
      (l, { acc.2 with updated_categories := acc.2.updated_categories + 1 })
    else
      (l, acc.2)
  | (none, l) => (l, { acc.2 with new_categories := acc.2.new_categories + 1 })

/-- Body of the outer merge loop of syncCategories: merge the group
record, then merge every category nested in that response group. -/
def mergeGroupAndCats
    (acc : List CachedCategoryGroup × List CachedCategory × CategorySyncStats)
    (group : RespCategoryGroup) :
    List CachedCategoryGroup × List CachedCategory × CategorySyncStats :=
  let gr := mergeGroupStep (acc.1, acc.2.2) group
  let cr := group.categories.foldl (mergeCategoryStep group.name) (acc.2.1, gr.2)
  (gr.1, cr.1, cr.2)

/-- Initial stats object of syncCategories. -/
def initCatStats : CategorySyncStats :=
  { total_groups := 0, total_categories := 0
    new_groups := 0, updated_groups := 0, deleted_groups := 0
    new_categories := 0, updated_categories := 0, deleted_categories := 0 }

/-- Pure core of syncCategories from src/cache/categories.ts: merge the
remote response into the existing cache (or build a fresh cache), then
fill the two total counters from the final cache. -/
def syncCategoriesPure (existing : Option CategoriesCache)
    (resp : CategoriesResponse) (now : String) :
    CategoriesCache × CategorySyncStats :=
  match existing with
  | some ex =>
    let m := resp.category_groups.foldl mergeGroupAndCats
      (ex.category_groups, ex.categories, initCatStats)
    let cache : CategoriesCache :=
      { server_knowledge := resp.server_knowledge
        last_synced := now
        category_groups := m.1
        categories := m.2.1 }
    (cache,
      { m.2.2 with
          total_groups :=
            (cache.category_groups.filter (fun g => !g.deleted && !g.hidden)).length
          total_categories :=
            (cache.categories.filter (fun c => !c.deleted && !c.hidden)).length })
  | none =>
    let categoryGroups := resp.category_groups.map toCachedGroup
    let categories :=
      (resp.category_groups.map
        (fun g => g.categories.map (toCachedCategory g.name))).flatten
    let cache : CategoriesCache :=
      { server_knowledge := resp.server_knowledge
        last_synced := now
        category_groups := categoryGroups
        categories := categories }
    (cache,
      { initCatStats with
          new_groups := (categoryGroups.filter (fun g => !g.deleted)).length
          new_categories := (categories.filter (fun c => !c.deleted)).length
          total_groups :=
            (cache.category_groups.filter (fun g => !g.deleted && !g.hidden)).length
          total_categories :=
            (cache.categories.filter (fun c => !c.deleted && !c.hidden)).length })

/-- syncCategories with its effects explicit, in the same shape as
syncPayees: read, remote call with the cached cursor, propagate a
failure untouched, write the merged cache on success. -/
def syncCategories (fs : FileState CategoriesCache)
    (remote : Option Nat → Except String CategoriesResponse) (now : String) :
    Except String (CategoriesCache × CategorySyncStats) × FileState CategoriesCache :=
  let existing := readCache fs
  match remote (existing.map (fun c => c.server_knowledge)) with
  | .error e => (.error e, fs)
  | .ok resp =>
    let r := syncCategoriesPure existing resp now
    (.ok r, .stored r.1)

/-- searchCategoriesInCache from src/cache/categories.ts: lowercase the
query, keep non-deleted non-hidden categories whose lowercased name or
lowercased denormalized group name contains it. -/
def searchCategoriesInCache (cache : CategoriesCache) (query : String) :
    List CachedCategory :=
  let searchLower := jsToLower query
  (cache.categories.filter (fun c => !c.deleted && !c.hidden)).filter
    (fun c =>
      jsIncludes (jsToLower c.name) searchLower ||
      jsIncludes (jsToLower c.category_group_name) searchLower)

/-- Repeated application of findReplace over a list of already-converted
incoming records: the list component of the merge loops, with the stats
threading stripped away. -/
def mergeAll (idOf : α → String) (init : List α) (xs : List α) : List α :=
  xs.foldl (fun ps x => (findReplace idOf x ps).2) init

/-- All (enclosing group name, category) pairs of a list of response
groups, in processing order of the nested loops of syncCategories. -/
def groupCategoryPairs (gs : List RespCategoryGroup) :
    List (String × RespCategory) :=
  (gs.map (fun g => g.categories.map (fun c => (g.name, c)))).flatten

/-- All (enclosing group name, category) pairs of a categories response,
in processing order of the nested loops of syncCategories. -/
def respCategoryPairs (resp : CategoriesResponse) :
    List (String × RespCategory) :=
  groupCategoryPairs resp.category_groups

/-- Ids of all categories occurring anywhere in a categories response. -/
def respCategoryIds (resp : CategoriesResponse) : List String :=
  (respCategoryPairs resp).map (fun pr => pr.2.id)

/-- Ids of all groups occurring in a categories response. -/
def respGroupIds (resp : CategoriesResponse) : List String :=
  resp.category_groups.map (fun g => g.id)

/-- Sequence of payee syncs starting from no cache, each merging one
remote response, as the engine performs them when serialized. -/
def syncPayeesSeq (now : String) (resps : List PayeesResponse) :
    Option PayeesCache :=
  resps.foldl (fun acc resp => some (syncPayeesPure acc resp now).1) none

/-- Sequence of category syncs starting from no cache. -/
def syncCategoriesSeq (now : String) (resps : List CategoriesResponse) :
    Option CategoriesCache :=
  resps.foldl (fun acc resp => some (syncCategoriesPure acc resp now).1) none

/-- Sum of the three delta counters of a payee sync. -/
def statSum (s : SyncStats) : Nat :=
  s.new + s.updated + s.deleted

/-- Sum of the three category delta counters of a category sync. -/
def catStatSum (s : CategorySyncStats) : Nat :=
  s.new_categories + s.updated_categories + s.deleted_categories

/-- Sum of the three group delta counters of a category sync. -/
def groupStatSum (s : CategorySyncStats) : Nat :=
  s.new_groups + s.updated_groups + s.deleted_groups

/-- Sample active payee used in concrete checks. -/
def samplePayee : CachedPayee :=
  { id := "p1", name := "Amazon", deleted := false, transfer_account_id := none }

/-- Sample tombstoned payee used in concrete checks. -/
def samplePayeeDeleted : CachedPayee :=
  { id := "p1", name := "Amazon", deleted := true, transfer_account_id := none }

/-- Sample incoming payee record used in concrete checks. -/
def sampleRespPayee : RespPayee :=
  { id := "p1", name := "Amazon", deleted := false, transfer_account_id := none }

/-- Sample incoming deleted payee record used in concrete checks. -/
def sampleRespPayeeDeleted : RespPayee :=
  { id := "p1", name := "Amazon", deleted := true, transfer_account_id := none }

/-- Sample payees cache used in concrete checks. -/
def sampleCache : PayeesCache :=
  { server_knowledge := 100, last_synced := "t0", payees := [samplePayee] }

/-- Payees response carrying a single record that arrives already
deleted. -/
def deletedOnlyResp : PayeesResponse :=
  { server_knowledge := 1, payees := [sampleRespPayeeDeleted] }

/-- Payees response carrying two records with the same id. -/
def duplicateIdResp : PayeesResponse :=
  { server_knowledge := 1, payees := [sampleRespPayee, sampleRespPayee] }

/-- Sample cached category belonging to group g1 with denormalized name
A. -/
def sampleCat : CachedCategory :=
  { id := "c1", name := "Food", category_group_id := "g1"
    category_group_name := "A", hidden := false, deleted := false
    note := none, budgeted := 0, activity := 0, balance := 0
    goal_type := none, goal_percentage_complete := none }

/-- Sample incoming category record nested under group g1. -/
def sampleRespCat : RespCategory :=
  { id := "c1", name := "Food", category_group_id := "g1"
    hidden := false, deleted := false
    note := none, budgeted := 0, activity := 0, balance := 0
    goal_type := none, goal_percentage_complete := none }

/-- Sample incoming deleted category record nested under group g1. -/
def sampleRespCatDeleted : RespCategory :=
  { id := "c1", name := "Food", category_group_id := "g1"
    hidden := false, deleted := true
    note := none, budgeted := 0, activity := 0, balance := 0
    goal_type := none, goal_percentage_complete := none }

/-- Sample cached category group used in concrete checks. -/
def sampleGroup : CachedCategoryGroup :=
  { id := "g1", name := "A", hidden := false, deleted := false }

/-- Sample incoming deleted group record used in concrete checks. -/
def sampleRespGroupDeleted : RespCategoryGroup :=
  { id := "g1", name := "A", hidden := false, deleted := true
    categories := [] }

/-- Sample categories cache: one group g1 named A, one category c1 in it
with denormalized group name A. -/
def sampleCatCache : CategoriesCache :=
  { server_knowledge := 1, last_synced := "t0"
    category_groups := [{ id := "g1", name := "A", hidden := false, deleted := false }]
    categories := [sampleCat] }

/-- Categories response renaming group g1 to B without resending any of
its categories (a perfectly legal delta). -/
def renameOnlyResp : CategoriesResponse :=
  { server_knowledge := 2
    category_groups :=
      [{ id := "g1", name := "B", hidden := false, deleted := false, categories := [] }] }

/-- Response group g1 renamed to B, resending category c1 inside it. -/
def renameWithCatGroup : RespCategoryGroup :=
  { id := "g1", name := "B", hidden := false, deleted := false
    categories := [sampleRespCat] }

/-- Categories response renaming group g1 to B and resending category
c1 inside it. -/
def renameWithCatResp : CategoriesResponse :=
  { server_knowledge := 2
    category_groups := [renameWithCatGroup] }

/-- The record reported replaced by findReplace is exactly the first
record carrying the incoming id. -/
theorem findReplace_fst (idOf : α → String) (x : α) (ps : List α) :
    (findReplace idOf x ps).1 = lookupById idOf (idOf x) ps := by
  induction ps with
  | nil => rfl
  | cons p rest ih =>
    by_cases h : idOf p = idOf x
    · simp [findReplace, lookupById, h]
    · simp [findReplace, lookupById, h, ih]

/-- After findReplace, looking up the incoming id finds the incoming
record. -/
theorem lookupById_findReplace_self (idOf : α → String) (x : α) (ps : List α) :
    lookupById idOf (idOf x) (findReplace idOf x ps).2 = some x := by
  induction ps with
  | nil => simp [findReplace, lookupById]
  | cons p rest ih =>
    by_cases h : idOf p = idOf x
    · simp [findReplace, lookupById, h]
    · simp [findReplace, lookupById, h, ih]

/-- findReplace leaves lookups of any other id unchanged. -/
theorem lookupById_findReplace_ne (idOf : α → String) (x : α) (ps : List α)
    (i : String) (h : i ≠ idOf x) :
    lookupById idOf i (findReplace idOf x ps).2 = lookupById idOf i ps := by
  induction ps with
  | nil => simp [findReplace, lookupById, Ne.symm h]
  | cons p rest ih =>
    by_cases hp : idOf p = idOf x
    · have hpi : idOf p ≠ i := by rw [hp]; exact Ne.symm h
      simp [findReplace, lookupById, hp, hpi, Ne.symm h]
    · simp [findReplace, lookupById, hp, ih]

/-- Unfolding equation of findReplace when the head record carries the
incoming id. -/
theorem findReplace_cons_pos (idOf : α → String) {p x : α} (rest : List α)
    (h : idOf p = idOf x) :
    findReplace idOf x (p :: rest) = (some p, x :: rest) := by
  simp [findReplace, h]

/-- Unfolding equation of findReplace when the head record does not carry
the incoming id. -/
theorem findReplace_cons_neg (idOf : α → String) {p x : α} (rest : List α)
    (h : ¬idOf p = idOf x) :
    findReplace idOf x (p :: rest) =
      ((findReplace idOf x rest).1, p :: (findReplace idOf x rest).2) := by
  simp [findReplace, h]

/-- Every id present after findReplace is the incoming id or a previous
id. -/
theorem mem_idOf_findReplace (idOf : α → String) {x : α} {ps : List α}
    {i : String} (h : i ∈ (findReplace idOf x ps).2.map idOf) :
    i = idOf x ∨ i ∈ ps.map idOf := by
  induction ps with
  | nil => simpa [findReplace] using h
  | cons p rest ih =>
    by_cases hp : idOf p = idOf x
    · rw [findReplace_cons_pos idOf rest hp] at h
      rw [List.map_cons, List.mem_cons] at h
      rcases h with h | h
      · exact Or.inl h
      · exact Or.inr (List.mem_cons_of_mem _ h)
    · rw [findReplace_cons_neg idOf rest hp] at h
      rw [List.map_cons, List.mem_cons] at h
      rcases h with h | h
      · exact Or.inr (by simp [h])
      · rcases ih h with h1 | h1
        · exact Or.inl h1
        · exact Or.inr (List.mem_cons_of_mem _ h1)

/-- findReplace preserves the no-duplicate-ids invariant. -/
theorem findReplace_ids_nodup (idOf : α → String) {x : α} {ps : List α}
    (h : (ps.map idOf).Nodup) : ((findReplace idOf x ps).2.map idOf).Nodup := by
  induction ps with
  | nil => simp [findReplace]
  | cons p rest ih =>
    rw [List.map_cons, List.nodup_cons] at h
    by_cases hp : idOf p = idOf x
    · rw [findReplace_cons_pos idOf rest hp]
      rw [List.map_cons, List.nodup_cons]
      exact ⟨hp ▸ h.1, h.2⟩
    · rw [findReplace_cons_neg idOf rest hp]
      rw [List.map_cons, List.nodup_cons]
      refine ⟨fun hmem => ?_, ih h.2⟩
      rcases mem_idOf_findReplace idOf hmem with h1 | h1
      · exact hp h1
      · exact h.1 h1

/-- mergeAll on an empty incoming list is the identity. -/
theorem mergeAll_nil (idOf : α → String) (init : List α) :
    mergeAll idOf init [] = init := rfl

/-- mergeAll peels one incoming record at a time. -/
theorem mergeAll_cons (idOf : α → String) (init : List α) (x : α) (xs : List α) :
    mergeAll idOf init (x :: xs) = mergeAll idOf (findReplace idOf x init).2 xs := rfl

/-- mergeAll over an appended incoming list merges the two halves in
order. -/
theorem mergeAll_append (idOf : α → String) (init : List α) (xs ys : List α) :
    mergeAll idOf init (xs ++ ys) = mergeAll idOf (mergeAll idOf init xs) ys := by
  simp [mergeAll, List.foldl_append]

/-- mergeAll preserves the no-duplicate-ids invariant, for an arbitrary
incoming list. -/
theorem mergeAll_ids_nodup (idOf : α → String) {init : List α}
    (h : (init.map idOf).Nodup) (xs : List α) :
    ((mergeAll idOf init xs).map idOf).Nodup := by
  induction xs generalizing init with
  | nil => simpa [mergeAll] using h
  | cons x xs ih =>
    rw [mergeAll_cons]
    exact ih (findReplace_ids_nodup idOf h)

/-- mergeAll leaves lookups of ids absent from the incoming list
unchanged. -/
theorem lookupById_mergeAll_not_mem (idOf : α → String) {i : String}
    {xs : List α} (h : i ∉ xs.map idOf) (init : List α) :
    lookupById idOf i (mergeAll idOf init xs) = lookupById idOf i init := by
  induction xs generalizing init with
  | nil => rfl
  | cons x xs ih =>
    have h1 : i ≠ idOf x := fun e => h (by simp [e])
    have h2 : i ∉ xs.map idOf := fun m => h (by simp [m])
    rw [mergeAll_cons, ih h2, lookupById_findReplace_ne idOf x init i h1]

/-- If the incoming ids are distinct, each incoming record is found
verbatim after mergeAll. -/
theorem lookupById_mergeAll_self (idOf : α → String) {xs : List α}
    (hnd : (xs.map idOf).Nodup) {x : α} (hx : x ∈ xs) (init : List α) :
    lookupById idOf (idOf x) (mergeAll idOf init xs) = some x := by
  induction xs generalizing init with
  | nil => cases hx
  | cons y ys ih =>
    rw [List.map_cons, List.nodup_cons] at hnd
    rcases List.mem_cons.mp hx with rfl | hmem
    · rw [mergeAll_cons, lookupById_mergeAll_not_mem idOf hnd.1 _]
      exact lookupById_findReplace_self idOf x init
    · rw [mergeAll_cons]
      exact ih hnd.2 hmem _

/-- A list with distinct ids carries at most one record per id. -/
theorem filter_idOf_length_le_one (idOf : α → String) {l : List α}
    (h : (l.map idOf).Nodup) (i : String) :
    (l.filter (fun a => idOf a = i)).length ≤ 1 := by
  induction l with
  | nil => simp
  | cons a l ih =>
    rw [List.map_cons, List.nodup_cons] at h
    by_cases ha : idOf a = i
    · rw [List.filter_cons_of_pos (by simp [ha])]
      have hnil : l.filter (fun b => decide (idOf b = i)) = [] := by
        refine List.filter_eq_nil_iff.mpr (fun b hb => ?_)
        simp only [decide_eq_true_eq]
        intro e
        exact h.1 (ha ▸ e ▸ List.mem_map_of_mem idOf hb)
      simp [hnil]
    · rw [List.filter_cons_of_neg (by simp [ha])]
      exact ih h.2

/-- The cache-list component of one payee merge iteration is exactly
findReplace on the incoming record. -/
theorem mergePayeeStep_fst (acc : List CachedPayee × SyncStats)
    (payee : RespPayee) :
    (mergePayeeStep acc payee).1 =
      (findReplace (fun p => p.id) (toCachedPayee payee) acc.1).2 := by
  unfold mergePayeeStep
  cases hfr : findReplace (fun p => p.id) (toCachedPayee payee) acc.1 with
  | mk o l =>
    cases o with
    | none => rfl
    | some old =>
      dsimp only
      split
      · rfl
      · split <;> rfl

/-- The cache-list component of the whole payee merge loop is mergeAll
over the converted incoming records. -/
theorem foldl_mergePayeeStep_fst (l : List RespPayee) (ps : List CachedPayee)
    (st : SyncStats) :
    (l.foldl mergePayeeStep (ps, st)).1 =
      mergeAll (fun p => p.id) ps (l.map toCachedPayee) := by
  induction l generalizing ps st with
  | nil => rfl
  | cons x xs ih =>
    rw [List.foldl_cons, List.map_cons, mergeAll_cons]
    rw [← mergePayeeStep_fst (ps, st) x]
    exact ih _ _

/-- The cache-list component of one group merge iteration is exactly
findReplace on the incoming group. -/
theorem mergeGroupStep_fst (acc : List CachedCategoryGroup × CategorySyncStats)
    (group : RespCategoryGroup) :
    (mergeGroupStep acc group).1 =
      (findReplace (fun g => g.id) (toCachedGroup group) acc.1).2 := by
  unfold mergeGroupStep
  cases hfr : findReplace (fun g => g.id) (toCachedGroup group) acc.1 with
  | mk o l =>
    cases o with
    | none => rfl
    | some old =>
      dsimp only
      split
      · rfl
      · split <;> rfl

/-- The cache-list component of one category merge iteration is exactly
findReplace on the incoming category. -/
theorem mergeCategoryStep_fst (gn : String)
    (acc : List CachedCategory × CategorySyncStats) (category : RespCategory) :
    (mergeCategoryStep gn acc category).1 =
      (findReplace (fun c => c.id) (toCachedCategory gn category) acc.1).2 := by
  unfold mergeCategoryStep
  cases hfr : findReplace (fun c => c.id) (toCachedCategory gn category) acc.1 with
  | mk o l =>
    cases o with
    | none => rfl
    | some old =>
      dsimp only
      split
      · rfl
      · split <;> rfl

/-- The cache-list component of the inner category merge loop is mergeAll
over the converted categories of one response group. -/
theorem foldl_mergeCategoryStep_fst (gn : String) (l : List RespCategory)
    (cs : List CachedCategory) (st : CategorySyncStats) :
    (l.foldl (mergeCategoryStep gn) (cs, st)).1 =
      mergeAll (fun c => c.id) cs (l.map (toCachedCategory gn)) := by
  induction l generalizing cs st with
  | nil => rfl
  | cons x xs ih =>
    rw [List.foldl_cons, List.map_cons, mergeAll_cons]
    rw [← mergeCategoryStep_fst gn (cs, st) x]
    exact ih _ _

/-- Unfolding equation of groupCategoryPairs on a cons. -/
theorem groupCategoryPairs_cons (g : RespCategoryGroup)
    (gl : List RespCategoryGroup) :
    groupCategoryPairs (g :: gl) =
      (g.categories.map (fun c => (g.name, c))) ++ groupCategoryPairs gl := by
  simp [groupCategoryPairs]

/-- The group-list component of the outer merge loop of syncCategories is
mergeAll over the converted incoming groups. -/
theorem foldl_mergeGroupAndCats_groups (gl : List RespCategoryGroup)
    (gs : List CachedCategoryGroup) (cs : List CachedCategory)
    (st : CategorySyncStats) :
    (gl.foldl mergeGroupAndCats (gs, cs, st)).1 =
      mergeAll (fun g => g.id) gs (gl.map toCachedGroup) := by
  induction gl generalizing gs cs st with
  | nil => rfl
  | cons g gl ih =>
    rw [List.foldl_cons, List.map_cons, mergeAll_cons]
    rw [← mergeGroupStep_fst (gs, st) g]
    exact ih _ _ _

/-- The category-list component of the outer merge loop of syncCategories
is mergeAll over all converted (group name, category) pairs of the
response, in processing order. -/
theorem foldl_mergeGroupAndCats_cats (gl : List RespCategoryGroup)
    (gs : List CachedCategoryGroup) (cs : List CachedCategory)
    (st : CategorySyncStats) :
    (gl.foldl mergeGroupAndCats (gs, cs, st)).2.1 =
      mergeAll (fun c => c.id) cs
        ((groupCategoryPairs gl).map (fun pr => toCachedCategory pr.1 pr.2)) := by
  induction gl generalizing gs cs st with
  | nil => rfl
  | cons g gl ih =>
    rw [List.foldl_cons, groupCategoryPairs_cons, List.map_append, mergeAll_append]
    have hmapmap :
        (g.categories.map (fun c => (g.name, c))).map
            (fun pr => toCachedCategory pr.1 pr.2)
          = g.categories.map (toCachedCategory g.name) := by
      rw [List.map_map]
      rfl
    rw [hmapmap]
    rw [← foldl_mergeCategoryStep_fst g.name g.categories cs
      (mergeGroupStep (gs, st) g).2]
    exact ih _ _ _

/-- One payee merge iteration raises the sum of the three delta counters
by at most one. -/
theorem statSum_mergePayeeStep (acc : List CachedPayee × SyncStats)
    (payee : RespPayee) :
    statSum (mergePayeeStep acc payee).2 ≤ statSum acc.2 + 1 := by
  unfold mergePayeeStep
  cases hfr : findReplace (fun p => p.id) (toCachedPayee payee) acc.1 with
  | mk o l =>
    cases o with
    | none => simp [statSum]; omega
    | some old =>
      dsimp only
      split
      · simp [statSum]; omega
      · split
        · simp [statSum]; omega
        · simp [statSum]

/-- One payee merge iteration never changes the total counter. -/
theorem total_mergePayeeStep (acc : List CachedPayee × SyncStats)
    (payee : RespPayee) :
    (mergePayeeStep acc payee).2.total = acc.2.total := by
  unfold mergePayeeStep
  cases hfr : findReplace (fun p => p.id) (toCachedPayee payee) acc.1 with
  | mk o l =>
    cases o with
    | none => rfl
    | some old =>
      dsimp only
      split
      · rfl
      · split <;> rfl

/-- The whole payee merge loop raises the sum of the three delta counters
by at most the number of incoming records. -/
theorem statSum_foldl_mergePayeeStep (l : List RespPayee)
    (ps : List CachedPayee) (st : SyncStats) :
    statSum ((l.foldl mergePayeeStep (ps, st)).2) ≤ statSum st + l.length := by
  induction l generalizing ps st with
  | nil => simp
  | cons x xs ih =>
    rw [List.foldl_cons]
    have h1 := statSum_mergePayeeStep (ps, st) x
    rcases hstep : mergePayeeStep (ps, st) x with ⟨ps1, st1⟩
    rw [hstep] at h1
    dsimp only at h1
    have h2 := ih ps1 st1
    simp only [List.length_cons]
    omega

/-- One category merge iteration raises the sum of the three category
delta counters by at most one. -/
theorem catStatSum_mergeCategoryStep (gn : String)
    (acc : List CachedCategory × CategorySyncStats) (category : RespCategory) :
    catStatSum (mergeCategoryStep gn acc category).2 ≤ catStatSum acc.2 + 1 := by
  unfold mergeCategoryStep
  cases hfr : findReplace (fun c => c.id) (toCachedCategory gn category) acc.1 with
  | mk o l =>
    cases o with
    | none => simp [catStatSum]; omega
    | some old =>
      dsimp only
      split
      · simp [catStatSum]; omega
      · split
        · simp [catStatSum]; omega
        · simp [catStatSum]

/-- One category merge iteration leaves every group counter unchanged. -/
theorem groupStatSum_mergeCategoryStep (gn : String)
    (acc : List CachedCategory × CategorySyncStats) (category : RespCategory) :
    groupStatSum (mergeCategoryStep gn acc category).2 = groupStatSum acc.2 := by
  unfold mergeCategoryStep
  cases hfr : findReplace (fun c => c.id) (toCachedCategory gn category) acc.1 with
  | mk o l =>
    cases o with
    | none => rfl
    | some old =>
      dsimp only
      split
      · rfl
      · split <;> rfl

/-- One group merge iteration raises the sum of the three group delta
counters by at most one. -/
theorem groupStatSum_mergeGroupStep
    (acc : List CachedCategoryGroup × CategorySyncStats)
    (group : RespCategoryGroup) :
    groupStatSum (mergeGroupStep acc group).2 ≤ groupStatSum acc.2 + 1 := by
  unfold mergeGroupStep
  cases hfr : findReplace (fun g => g.id) (toCachedGroup group) acc.1 with
  | mk o l =>
    cases o with
    | none => simp [groupStatSum]; omega
    | some old =>
      dsimp only
      split
      · simp [groupStatSum]; omega
      · split
        · simp [groupStatSum]; omega
        · simp [groupStatSum]

/-- One group merge iteration leaves every category counter unchanged. -/
theorem catStatSum_mergeGroupStep
    (acc : List CachedCategoryGroup × CategorySyncStats)
    (group : RespCategoryGroup) :
    catStatSum (mergeGroupStep acc group).2 = catStatSum acc.2 := by
  unfold mergeGroupStep
  cases hfr : findReplace (fun g => g.id) (toCachedGroup group) acc.1 with
  | mk o l =>
    cases o with
    | none => rfl
    | some old =>
      dsimp only
      split
      · rfl
      · split <;> rfl

/-- The inner category merge loop raises the category counter sum by at
most the number of incoming categories of the group. -/
theorem catStatSum_foldl_mergeCategoryStep (gn : String)
    (l : List RespCategory) (cs : List CachedCategory)
    (st : CategorySyncStats) :
    catStatSum ((l.foldl (mergeCategoryStep gn) (cs, st)).2) ≤
      catStatSum st + l.length := by
  induction l generalizing cs st with
  | nil => simp
  | cons x xs ih =>
    rw [List.foldl_cons]
    have h1 := catStatSum_mergeCategoryStep gn (cs, st) x
    rcases hstep : mergeCategoryStep gn (cs, st) x with ⟨cs1, st1⟩
    rw [hstep] at h1
    dsimp only at h1
    have h2 := ih cs1 st1
    simp only [List.length_cons]
    omega

/-- The inner category merge loop leaves the group counter sum
unchanged. -/
theorem groupStatSum_foldl_mergeCategoryStep (gn : String)
    (l : List RespCategory) (cs : List CachedCategory)
    (st : CategorySyncStats) :
    groupStatSum ((l.foldl (mergeCategoryStep gn) (cs, st)).2) =
      groupStatSum st := by
  induction l generalizing cs st with
  | nil => rfl
  | cons x xs ih =>
    rw [List.foldl_cons]
    have h1 := groupStatSum_mergeCategoryStep gn (cs, st) x
    rcases hstep : mergeCategoryStep gn (cs, st) x with ⟨cs1, st1⟩
    rw [hstep] at h1
    dsimp only at h1
    rw [ih cs1 st1, h1]

/-- The outer merge loop of syncCategories raises the category counter
sum by at most the total number of incoming categories. -/
theorem catStatSum_foldl_mergeGroupAndCats (gl : List RespCategoryGroup)
    (gs : List CachedCategoryGroup) (cs : List CachedCategory)
    (st : CategorySyncStats) :
    catStatSum ((gl.foldl mergeGroupAndCats (gs, cs, st)).2.2) ≤
      catStatSum st + (groupCategoryPairs gl).length := by
  induction gl generalizing gs cs st with
  | nil => simp
  | cons g gl ih =>
    rw [List.foldl_cons, groupCategoryPairs_cons, List.length_append,
      List.length_map]
    have hg := catStatSum_mergeGroupStep (gs, st) g
    rcases hgr : mergeGroupStep (gs, st) g with ⟨gs1, st1⟩
    rw [hgr] at hg
    dsimp only at hg
    have hc := catStatSum_foldl_mergeCategoryStep g.name g.categories cs st1
    rcases hcr : g.categories.foldl (mergeCategoryStep g.name) (cs, st1) with ⟨cs1, st2⟩
    rw [hcr] at hc
    dsimp only at hc
    have hrec := ih gs1 cs1 st2
    have hstep : mergeGroupAndCats (gs, cs, st) g = (gs1, cs1, st2) := by
      unfold mergeGroupAndCats
      dsimp only
      rw [hgr]
      dsimp only
      rw [hcr]
    rw [hstep]
    omega

/-- The outer merge loop of syncCategories raises the group counter sum
by at most the number of incoming groups. -/
theorem groupStatSum_foldl_mergeGroupAndCats (gl : List RespCategoryGroup)
    (gs : List CachedCategoryGroup) (cs : List CachedCategory)
    (st : CategorySyncStats) :
    groupStatSum ((gl.foldl mergeGroupAndCats (gs, cs, st)).2.2) ≤
      groupStatSum st + gl.length := by
  induction gl generalizing gs cs st with
  | nil => simp
  | cons g gl ih =>
    rw [List.foldl_cons, List.length_cons]
    have hg := groupStatSum_mergeGroupStep (gs, st) g
    rcases hgr : mergeGroupStep (gs, st) g with ⟨gs1, st1⟩
    rw [hgr] at hg
    dsimp only at hg
    have hc := groupStatSum_foldl_mergeCategoryStep g.name g.categories cs st1
    rcases hcr : g.categories.foldl (mergeCategoryStep g.name) (cs, st1) with ⟨cs1, st2⟩
    rw [hcr] at hc
    dsimp only at hc
    have hrec := ih gs1 cs1 st2
    have hstep : mergeGroupAndCats (gs, cs, st) g = (gs1, cs1, st2) := by
      unfold mergeGroupAndCats
      dsimp only
      rw [hgr]
      dsimp only
      rw [hcr]
    rw [hstep]
    omega

/-- A payee merge iteration whose cached counterpart is live while the
incoming record is deleted: the record is replaced and only the deleted
counter moves, by exactly one. -/
theorem mergePayeeStep_deleted_transition (ps : List CachedPayee)
    (st : SyncStats) (payee : RespPayee) (old : CachedPayee)
    (h : lookupById (fun p => p.id) payee.id ps = some old)
    (ho : old.deleted = false) (hp : payee.deleted = true) :
    mergePayeeStep (ps, st) payee =
      ((findReplace (fun p => p.id) (toCachedPayee payee) ps).2,
        { st with deleted := st.deleted + 1 }) := by
  have hfst := findReplace_fst (fun p => p.id) (toCachedPayee payee) ps
  unfold mergePayeeStep
  cases hfr : findReplace (fun p => p.id) (toCachedPayee payee) ps with
  | mk o l =>
    rw [hfr] at hfst
    dsimp only [toCachedPayee] at hfst
    rw [h] at hfst
    subst hfst
    simp [hp, ho]

/-- A payee merge iteration whose cached counterpart is already deleted
and whose incoming record is deleted too: no counter moves, but the
record is still overwritten. -/
theorem mergePayeeStep_tombstone (ps : List CachedPayee) (st : SyncStats)
    (payee : RespPayee) (old : CachedPayee)
    (h : lookupById (fun p => p.id) payee.id ps = some old)
    (ho : old.deleted = true) (hp : payee.deleted = true) :
    mergePayeeStep (ps, st) payee =
      ((findReplace (fun p => p.id) (toCachedPayee payee) ps).2, st) := by
  have hfst := findReplace_fst (fun p => p.id) (toCachedPayee payee) ps
  unfold mergePayeeStep
  cases hfr : findReplace (fun p => p.id) (toCachedPayee payee) ps with
  | mk o l =>
    rw [hfr] at hfst
    dsimp only [toCachedPayee] at hfst
    rw [h] at hfst
    subst hfst
    simp [hp, ho]

/-- A category merge iteration whose cached counterpart is live while the
incoming category is deleted: only deleted_categories moves, by one. -/
theorem mergeCategoryStep_deleted_transition (gn : String)
    (cs : List CachedCategory) (st : CategorySyncStats)
    (category : RespCategory) (old : CachedCategory)
    (h : lookupById (fun c => c.id) category.id cs = some old)
    (ho : old.deleted = false) (hc : category.deleted = true) :
    mergeCategoryStep gn (cs, st) category =
      ((findReplace (fun c => c.id) (toCachedCategory gn category) cs).2,
        { st with deleted_categories := st.deleted_categories + 1 }) := by
  have hfst := findReplace_fst (fun c => c.id) (toCachedCategory gn category) cs
  unfold mergeCategoryStep
  cases hfr : findReplace (fun c => c.id) (toCachedCategory gn category) cs with
  | mk o l =>
    rw [hfr] at hfst
    dsimp only [toCachedCategory] at hfst
    rw [h] at hfst
    subst hfst
    simp [hc, ho]

/-- A category merge iteration on an already-deleted cached counterpart
with a deleted incoming category: no counter moves, record overwritten. -/
theorem mergeCategoryStep_tombstone (gn : String)
    (cs : List CachedCategory) (st : CategorySyncStats)
    (category : RespCategory) (old : CachedCategory)
    (h : lookupById (fun c => c.id) category.id cs = some old)
    (ho : old.deleted = true) (hc : category.deleted = true) :
    mergeCategoryStep gn (cs, st) category =
      ((findReplace (fun c => c.id) (toCachedCategory gn category) cs).2, st) := by
  have hfst := findReplace_fst (fun c => c.id) (toCachedCategory gn category) cs
  unfold mergeCategoryStep
  cases hfr : findReplace (fun c => c.id) (toCachedCategory gn category) cs with
  | mk o l =>
    rw [hfr] at hfst
    dsimp only [toCachedCategory] at hfst
    rw [h] at hfst
    subst hfst
    simp [hc, ho]

/-- A group merge iteration whose cached counterpart is live while the
incoming group is deleted: only deleted_groups moves, by one. -/
theorem mergeGroupStep_deleted_transition (gs : List CachedCategoryGroup)
    (st : CategorySyncStats) (group : RespCategoryGroup)
    (old : CachedCategoryGroup)
    (h : lookupById (fun g => g.id) group.id gs = some old)
    (ho : old.deleted = false) (hg : group.deleted = true) :
    mergeGroupStep (gs, st) group =
      ((findReplace (fun g => g.id) (toCachedGroup group) gs).2,
        { st with deleted_groups := st.deleted_groups + 1 }) := by
  have hfst := findReplace_fst (fun g => g.id) (toCachedGroup group) gs
  unfold mergeGroupStep
  cases hfr : findReplace (fun g => g.id) (toCachedGroup group) gs with
  | mk o l =>
    rw [hfr] at hfst
    dsimp only [toCachedGroup] at hfst
    rw [h] at hfst
    subst hfst
    simp [hg, ho]

/-- The payee list produced by a merge sync is mergeAll over the
converted response records. -/
theorem syncPayeesPure_merge_payees (ex : PayeesCache) (resp : PayeesResponse)
    (now : String) :
    (syncPayeesPure (some ex) resp now).1.payees =
      mergeAll (fun p => p.id) ex.payees (resp.payees.map toCachedPayee) := by
  dsimp only [syncPayeesPure]
  exact foldl_mergePayeeStep_fst _ _ _

/-- The group list produced by a merge sync is mergeAll over the
converted response groups. -/
theorem syncCategoriesPure_merge_groups (ex : CategoriesCache)
    (resp : CategoriesResponse) (now : String) :
    (syncCategoriesPure (some ex) resp now).1.category_groups =
      mergeAll (fun g => g.id) ex.category_groups
        (resp.category_groups.map toCachedGroup) := by
  dsimp only [syncCategoriesPure]
  exact foldl_mergeGroupAndCats_groups _ _ _ _

/-- The category list produced by a merge sync is mergeAll over all
converted (group name, category) pairs of the response. -/
theorem syncCategoriesPure_merge_cats (ex : CategoriesCache)
    (resp : CategoriesResponse) (now : String) :
    (syncCategoriesPure (some ex) resp now).1.categories =
      mergeAll (fun c => c.id) ex.categories
        ((respCategoryPairs resp).map (fun pr => toCachedCategory pr.1 pr.2)) := by
  dsimp only [syncCategoriesPure]
  exact foldl_mergeGroupAndCats_cats _ _ _ _

/-- The flattened fresh-path category list equals the converted pair list
of the response. -/
theorem fresh_categories_eq_pairs (gl : List RespCategoryGroup) :
    (gl.map (fun g => g.categories.map (toCachedCategory g.name))).flatten =
      (groupCategoryPairs gl).map (fun pr => toCachedCategory pr.1 pr.2) := by
  induction gl with
  | nil => rfl
  | cons g gl ih =>
    rw [List.map_cons, List.flatten_cons, groupCategoryPairs_cons,
      List.map_append, ih, List.map_map]
    rfl

/-- Ids of the converted pair list are the response category ids. -/
theorem pairs_map_ids (gl : List RespCategoryGroup) :
    ((groupCategoryPairs gl).map (fun pr => toCachedCategory pr.1 pr.2)).map
        (fun d => d.id) =
      (groupCategoryPairs gl).map (fun pr => pr.2.id) := by
  rw [List.map_map]
  rfl

/-- A pair formed from a group of the response and one of its nested
categories occurs in the pair list. -/
theorem mem_groupCategoryPairs {g : RespCategoryGroup} {c : RespCategory}
    {gl : List RespCategoryGroup} (hg : g ∈ gl) (hc : c ∈ g.categories) :
    (g.name, c) ∈ groupCategoryPairs gl := by
  induction gl with
  | nil => cases hg
  | cons g0 gl ih =>
    rw [groupCategoryPairs_cons]
    rcases List.mem_cons.mp hg with rfl | hmem
    · exact List.mem_append_left _ (List.mem_map_of_mem _ hc)
    · exact List.mem_append_right _ (ih hmem)

/-- Ids of the converted pair list of a response are its category ids. -/
theorem resp_pairs_map_ids (resp : CategoriesResponse) :
    ((respCategoryPairs resp).map (fun pr => toCachedCategory pr.1 pr.2)).map
        (fun d => d.id) =
      respCategoryIds resp :=
  pairs_map_ids resp.category_groups

/-- C1 counterexample: a first sync whose response carries one record
with deleted set stores that record instead of dropping it, so the new
cache is not the response minus deleted records. -/
theorem fresh_sync_keeps_deleted_counterexample :
    ¬ ((syncPayeesPure none deletedOnlyResp "t").1.payees =
        (deletedOnlyResp.payees.filter (fun p => !p.deleted)).map toCachedPayee) := by
  decide

/-- C1 amended: for every first sync of a namespace (no existing cache
record), the new cache stores the full response entity list converted
verbatim, deleted records included, and stats.new equals the number of
non-deleted records of the response; likewise for categories, where the
nested response is flattened in processing order. -/
theorem fresh_sync_cache_and_new_counter (resp : PayeesResponse)
    (cresp : CategoriesResponse) (now : String) :
    (syncPayeesPure none resp now).1.payees = resp.payees.map toCachedPayee ∧
    (syncPayeesPure none resp now).2.new =
      (resp.payees.filter (fun p => !p.deleted)).length ∧
    (syncCategoriesPure none cresp now).1.category_groups =
      cresp.category_groups.map toCachedGroup ∧
    (syncCategoriesPure none cresp now).1.categories =
      (respCategoryPairs cresp).map (fun pr => toCachedCategory pr.1 pr.2) ∧
    (syncCategoriesPure none cresp now).2.new_groups =
      ((cresp.category_groups.map toCachedGroup).filter (fun g => !g.deleted)).length ∧
    (syncCategoriesPure none cresp now).2.new_categories =
      (((respCategoryPairs cresp).map (fun pr => toCachedCategory pr.1 pr.2)).filter
        (fun c => !c.deleted)).length := by
  refine ⟨rfl, rfl, rfl, ?_, rfl, ?_⟩
  · show (cresp.category_groups.map
        (fun g => g.categories.map (toCachedCategory g.name))).flatten = _
    exact fresh_categories_eq_pairs cresp.category_groups
  · show ((cresp.category_groups.map
        (fun g => g.categories.map (toCachedCategory g.name))).flatten.filter
          (fun c => !c.deleted)).length = _
    rw [fresh_categories_eq_pairs cresp.category_groups]
    rfl

/-- C2 counterexample: a sync whose response renames group g1 without
resending its unchanged categories leaves a cached category of g1 with
the old denormalized group name, different from the name stored for its
owning group after the sync. -/
theorem group_rename_not_propagated_counterexample :
    ∃ cat ∈ (syncCategoriesPure (some sampleCatCache) renameOnlyResp "t1").1.categories,
      ∃ grp ∈ (syncCategoriesPure (some sampleCatCache) renameOnlyResp "t1").1.category_groups,
        cat.category_group_id = grp.id ∧ cat.category_group_name ≠ grp.name := by
  decide

/-- C2 amended: after a merge category sync, denormalized group names are
refreshed exactly for the categories present in the response: provided
the response carries no duplicate group ids and no duplicate category
ids, every response category nested under a group g is stored with
category_group_name equal to the name of g, which is also the name
stored for that group after the sync; a cached category whose id is
absent from the response keeps its previous record, even when its owning
group was renamed in the same batch. -/
theorem merge_sync_group_name_refresh (ex : CategoriesCache)
    (resp : CategoriesResponse) (now : String)
    (hg : (respGroupIds resp).Nodup) (hc : (respCategoryIds resp).Nodup) :
    (∀ g ∈ resp.category_groups, ∀ c ∈ g.categories,
      lookupById (fun d => d.id) c.id
          (syncCategoriesPure (some ex) resp now).1.categories =
        some (toCachedCategory g.name c) ∧
      lookupById (fun d => d.id) g.id
          (syncCategoriesPure (some ex) resp now).1.category_groups =
        some (toCachedGroup g)) ∧
    (∀ i, i ∉ respCategoryIds resp →
      lookupById (fun d => d.id) i
          (syncCategoriesPure (some ex) resp now).1.categories =
        lookupById (fun d => d.id) i ex.categories) := by
  constructor
  · intro g hgmem c hcmem
    constructor
    · rw [syncCategoriesPure_merge_cats]
      have hx : toCachedCategory g.name c ∈
          (respCategoryPairs resp).map (fun pr => toCachedCategory pr.1 pr.2) :=
        List.mem_map_of_mem _ (mem_groupCategoryPairs hgmem hcmem)
      have hnd : (((respCategoryPairs resp).map
          (fun pr => toCachedCategory pr.1 pr.2)).map (fun d => d.id)).Nodup := by
        rw [resp_pairs_map_ids]
        exact hc
      exact lookupById_mergeAll_self (fun d => d.id) hnd hx _
    · rw [syncCategoriesPure_merge_groups]
      have hx : toCachedGroup g ∈ resp.category_groups.map toCachedGroup :=
        List.mem_map_of_mem _ hgmem
      have hnd : ((resp.category_groups.map toCachedGroup).map
          (fun d => d.id)).Nodup := by
        rw [List.map_map]
        exact hg
      exact lookupById_mergeAll_self (fun d => d.id) hnd hx _
  · intro i hi
    rw [syncCategoriesPure_merge_cats]
    apply lookupById_mergeAll_not_mem
    rw [resp_pairs_map_ids]
    exact hi

/-- C2 amended, applied at a concrete input: resending category c1 under
the renamed group g1 refreshes its denormalized group name to B. -/
theorem merge_sync_group_name_refresh_witness :
    (respGroupIds renameWithCatResp).Nodup ∧
    (respCategoryIds renameWithCatResp).Nodup ∧
    lookupById (fun d => d.id) "c1"
        (syncCategoriesPure (some sampleCatCache) renameWithCatResp "t1").1.categories =
      some (toCachedCategory "B" sampleRespCat) := by
  refine ⟨by decide, by decide, ?_⟩
  have h := (merge_sync_group_name_refresh sampleCatCache renameWithCatResp "t1"
    (by decide) (by decide)).1
  have h2 := (h renameWithCatGroup (by decide) sampleRespCat (by decide)).1
  exact h2

/-- C3: a delta sync whose response carries empty record lists and the
unchanged cursor leaves the cached items, groups and cursor exactly as
they were, changes only last_synced, and reports zero for every
new/updated/deleted counter, for payees and for categories. -/
theorem noop_delta_sync (ex : PayeesCache) (resp : PayeesResponse)
    (cex : CategoriesCache) (cresp : CategoriesResponse) (now : String)
    (h1 : resp.payees = []) (h2 : resp.server_knowledge = ex.server_knowledge)
    (h3 : cresp.category_groups = [])
    (h4 : cresp.server_knowledge = cex.server_knowledge) :
    (syncPayeesPure (some ex) resp now).1 = { ex with last_synced := now } ∧
    (syncPayeesPure (some ex) resp now).2.new = 0 ∧
    (syncPayeesPure (some ex) resp now).2.updated = 0 ∧
    (syncPayeesPure (some ex) resp now).2.deleted = 0 ∧
    (syncCategoriesPure (some cex) cresp now).1 = { cex with last_synced := now } ∧
    (syncCategoriesPure (some cex) cresp now).2.new_groups = 0 ∧
    (syncCategoriesPure (some cex) cresp now).2.updated_groups = 0 ∧
    (syncCategoriesPure (some cex) cresp now).2.deleted_groups = 0 ∧
    (syncCategoriesPure (some cex) cresp now).2.new_categories = 0 ∧
    (syncCategoriesPure (some cex) cresp now).2.updated_categories = 0 ∧
    (syncCategoriesPure (some cex) cresp now).2.deleted_categories = 0 := by
  rcases resp with ⟨sk, pl⟩
  rcases cresp with ⟨csk, cgl⟩
  dsimp only at h1 h2 h3 h4
  subst h1 h2 h3 h4
  rcases ex with ⟨esk, els, eps⟩
  rcases cex with ⟨xsk, xls, xgs, xcs⟩
  exact ⟨rfl, rfl, rfl, rfl, rfl, rfl, rfl, rfl, rfl, rfl, rfl⟩

/-- C3 applied at a concrete input: an empty delta at the cached cursor
changes nothing but the timestamp. -/
theorem noop_delta_sync_witness :
    (syncPayeesPure (some sampleCache)
        { server_knowledge := 100, payees := [] } "t1").1 =
      { sampleCache with last_synced := "t1" } ∧
    (syncCategoriesPure (some sampleCatCache)
        { server_knowledge := 1, category_groups := [] } "t1").2.deleted_categories = 0 := by
  have h := noop_delta_sync sampleCache { server_knowledge := 100, payees := [] }
    sampleCatCache { server_knowledge := 1, category_groups := [] } "t1"
    rfl rfl rfl rfl
  exact ⟨h.1, h.2.2.2.2.2.2.2.2.2.2⟩

/-- A merge payee sync preserves distinctness of the cached ids. -/
theorem syncPayeesPure_merge_nodup (ex : PayeesCache)
    (h : (ex.payees.map (fun p => p.id)).Nodup) (resp : PayeesResponse)
    (now : String) :
    ((syncPayeesPure (some ex) resp now).1.payees.map (fun p => p.id)).Nodup := by
  rw [syncPayeesPure_merge_payees]
  exact mergeAll_ids_nodup _ h _

/-- A merge category sync preserves distinctness of both cached id
sets. -/
theorem syncCategoriesPure_merge_nodup (ex : CategoriesCache)
    (hg : (ex.category_groups.map (fun g => g.id)).Nodup)
    (hc : (ex.categories.map (fun c => c.id)).Nodup)
    (resp : CategoriesResponse) (now : String) :
    ((syncCategoriesPure (some ex) resp now).1.category_groups.map
      (fun g => g.id)).Nodup ∧
    ((syncCategoriesPure (some ex) resp now).1.categories.map
      (fun c => c.id)).Nodup := by
  constructor
  · rw [syncCategoriesPure_merge_groups]
    exact mergeAll_ids_nodup _ hg _
  · rw [syncCategoriesPure_merge_cats]
    exact mergeAll_ids_nodup _ hc _

/-- A fresh payee sync has distinct cached ids when the response ids are
distinct. -/
theorem syncPayeesPure_fresh_nodup (resp : PayeesResponse) (now : String)
    (h : (resp.payees.map (fun p => p.id)).Nodup) :
    ((syncPayeesPure none resp now).1.payees.map (fun p => p.id)).Nodup := by
  show ((resp.payees.map toCachedPayee).map (fun p => p.id)).Nodup
  rw [List.map_map]
  exact h

/-- A fresh category sync has distinct cached ids when the response ids
are distinct. -/
theorem syncCategoriesPure_fresh_nodup (resp : CategoriesResponse)
    (now : String) (hg : (respGroupIds resp).Nodup)
    (hc : (respCategoryIds resp).Nodup) :
    ((syncCategoriesPure none resp now).1.category_groups.map
      (fun g => g.id)).Nodup ∧
    ((syncCategoriesPure none resp now).1.categories.map
      (fun c => c.id)).Nodup := by
  constructor
  · show ((resp.category_groups.map toCachedGroup).map (fun g => g.id)).Nodup
    rw [List.map_map]
    exact hg
  · show (((resp.category_groups.map
        (fun g => g.categories.map (toCachedCategory g.name))).flatten).map
          (fun c => c.id)).Nodup
    rw [fresh_categories_eq_pairs, pairs_map_ids]
    exact hc

/-- Distinct cached payee ids are preserved by any further sequence of
merge syncs. -/
theorem syncPayeesSeq_go_nodup (now : String) (rs : List PayeesResponse) :
    ∀ c : PayeesCache, (c.payees.map (fun p => p.id)).Nodup →
      ∀ cache,
        rs.foldl (fun acc resp => some (syncPayeesPure acc resp now).1)
          (some c) = some cache →
        (cache.payees.map (fun p => p.id)).Nodup := by
  induction rs with
  | nil =>
    intro c hc cache h
    rw [List.foldl_nil] at h
    cases h
    exact hc
  | cons r rs ih =>
    intro c hc cache h
    rw [List.foldl_cons] at h
    exact ih _ (syncPayeesPure_merge_nodup c hc r now) cache h

/-- Distinct cached category and group ids are preserved by any further
sequence of merge syncs. -/
theorem syncCategoriesSeq_go_nodup (now : String)
    (rs : List CategoriesResponse) :
    ∀ c : CategoriesCache,
      (c.category_groups.map (fun g => g.id)).Nodup →
      (c.categories.map (fun d => d.id)).Nodup →
      ∀ cache,
        rs.foldl (fun acc resp => some (syncCategoriesPure acc resp now).1)
          (some c) = some cache →
        (cache.category_groups.map (fun g => g.id)).Nodup ∧
        (cache.categories.map (fun d => d.id)).Nodup := by
  induction rs with
  | nil =>
    intro c h1 h2 cache h
    rw [List.foldl_nil] at h
    cases h
    exact ⟨h1, h2⟩
  | cons r rs ih =>
    intro c h1 h2 cache h
    rw [List.foldl_cons] at h
    have hn := syncCategoriesPure_merge_nodup c h1 h2 r now
    exact ih _ hn.1 hn.2 cache h

/-- C4 counterexample: the fresh-cache path copies the response verbatim,
so a first response that carries the same id twice produces a cache with
two records under that id. -/
theorem duplicate_first_response_counterexample :
    ¬ (∀ cache, syncPayeesSeq "t" [duplicateIdResp] = some cache →
        ∀ i, (cache.payees.filter (fun p => p.id = i)).length ≤ 1) := by
  intro h
  have h2 := h ((syncPayeesPure none duplicateIdResp "t").1) rfl "p1"
  exact absurd h2 (by decide)

/-- C4 amended: for every sequence of syncs starting from no cache, the
cached lists hold at most one record per id, provided the response that
creates the cache (the head of the sequence) carries pairwise distinct
ids; every later merge sync preserves the invariant for arbitrary
responses. -/
theorem at_most_one_record_per_id (now : String)
    (resps : List PayeesResponse) (cresps : List CategoriesResponse)
    (hp : ∀ r, resps.head? = some r → ((r.payees.map (fun p => p.id)).Nodup))
    (hg : ∀ r, cresps.head? = some r → (respGroupIds r).Nodup)
    (hc : ∀ r, cresps.head? = some r → (respCategoryIds r).Nodup) :
    (∀ cache, syncPayeesSeq now resps = some cache →
      ∀ i, (cache.payees.filter (fun p => p.id = i)).length ≤ 1) ∧
    (∀ cache, syncCategoriesSeq now cresps = some cache →
      ∀ i, (cache.categories.filter (fun c => c.id = i)).length ≤ 1 ∧
        (cache.category_groups.filter (fun g => g.id = i)).length ≤ 1) := by
  constructor
  · intro cache hcache i
    cases resps with
    | nil => simp [syncPayeesSeq] at hcache
    | cons r rs =>
      have h0 : ((syncPayeesPure none r now).1.payees.map
          (fun p => p.id)).Nodup :=
        syncPayeesPure_fresh_nodup r now (hp r rfl)
      have hcache2 :
          rs.foldl (fun acc resp => some (syncPayeesPure acc resp now).1)
            (some (syncPayeesPure none r now).1) = some cache := hcache
      have hnd := syncPayeesSeq_go_nodup now rs _ h0 cache hcache2
      exact filter_idOf_length_le_one (fun p : CachedPayee => p.id) hnd i
  · intro cache hcache i
    cases cresps with
    | nil => simp [syncCategoriesSeq] at hcache
    | cons r rs =>
      have h0 := syncCategoriesPure_fresh_nodup r now (hg r rfl) (hc r rfl)
      have hcache2 :
          rs.foldl (fun acc resp => some (syncCategoriesPure acc resp now).1)
            (some (syncCategoriesPure none r now).1) = some cache := hcache
      have hnd := syncCategoriesSeq_go_nodup now rs _ h0.1 h0.2 cache hcache2
      exact ⟨filter_idOf_length_le_one (fun c : CachedCategory => c.id) hnd.2 i,
        filter_idOf_length_le_one (fun g : CachedCategoryGroup => g.id) hnd.1 i⟩

/-- C4 amended, applied at a concrete input: a one-sync sequence with
distinct response ids stores at most one record per id. -/
theorem at_most_one_record_per_id_witness :
    ((syncPayeesPure none deletedOnlyResp "t").1.payees.filter
      (fun p => p.id = "p1")).length ≤ 1 := by
  have h := (at_most_one_record_per_id "t" [deletedOnlyResp] []
    (fun r hr => by cases hr; decide)
    (fun r hr => by simp at hr)
    (fun r hr => by simp at hr)).1
  exact h _ rfl "p1"

/-- C5: a failed remote list call propagates its error to the caller of
sync and the cache file state is returned exactly as it was: no save is
performed on the failure path, for payees and for categories. -/
theorem remote_failure_leaves_cache_untouched
    (fs : FileState PayeesCache)
    (remote : Option Nat → Except String PayeesResponse)
    (cfs : FileState CategoriesCache)
    (cremote : Option Nat → Except String CategoriesResponse)
    (now e ce : String)
    (h : remote ((readCache fs).map (fun c => c.server_knowledge)) =
      Except.error e)
    (hc : cremote ((readCache cfs).map (fun c => c.server_knowledge)) =
      Except.error ce) :
    syncPayees fs remote now = (Except.error e, fs) ∧
    syncCategories cfs cremote now = (Except.error ce, cfs) := by
  constructor
  · dsimp only [syncPayees]
    rw [h]
  · dsimp only [syncCategories]
    rw [hc]

/-- C5 applied at a concrete input: a failing remote call returns its
error and leaves the stored cache file state untouched. -/
theorem remote_failure_leaves_cache_untouched_witness :
    syncPayees (FileState.stored sampleCache)
        (fun _ => Except.error "boom") "t1" =
      (Except.error "boom", FileState.stored sampleCache) ∧
    syncCategories (FileState.stored sampleCatCache)
        (fun _ => Except.error "boom2") "t1" =
      (Except.error "boom2", FileState.stored sampleCatCache) :=
  remote_failure_leaves_cache_untouched
    (FileState.stored sampleCache) (fun _ => Except.error "boom")
    (FileState.stored sampleCatCache) (fun _ => Except.error "boom2")
    "t1" "boom" "boom2" rfl rfl

/-- C6: in a merge sync, an incoming record whose cached counterpart is
live (deleted false) and which arrives with deleted true moves the
deleted counter up by exactly one and leaves the new and updated
counters untouched; stated for the payee, category and group merge
iterations. -/
theorem deletion_transition_counts_once
    (ps : List CachedPayee) (st : SyncStats) (payee : RespPayee)
    (old : CachedPayee)
    (h : lookupById (fun p => p.id) payee.id ps = some old)
    (ho : old.deleted = false) (hp : payee.deleted = true)
    (gn : String) (cs : List CachedCategory) (cst : CategorySyncStats)
    (category : RespCategory) (cold : CachedCategory)
    (hcl : lookupById (fun c => c.id) category.id cs = some cold)
    (hco : cold.deleted = false) (hcd : category.deleted = true)
    (gs : List CachedCategoryGroup) (gst : CategorySyncStats)
    (group : RespCategoryGroup) (gold : CachedCategoryGroup)
    (hgl : lookupById (fun g => g.id) group.id gs = some gold)
    (hgo : gold.deleted = false) (hgd : group.deleted = true) :
    (mergePayeeStep (ps, st) payee).2 =
      { st with deleted := st.deleted + 1 } ∧
    (mergeCategoryStep gn (cs, cst) category).2 =
      { cst with deleted_categories := cst.deleted_categories + 1 } ∧
    (mergeGroupStep (gs, gst) group).2 =
      { gst with deleted_groups := gst.deleted_groups + 1 } := by
  refine ⟨?_, ?_, ?_⟩
  · rw [mergePayeeStep_deleted_transition ps st payee old h ho hp]
  · rw [mergeCategoryStep_deleted_transition gn cs cst category cold hcl hco hcd]
  · rw [mergeGroupStep_deleted_transition gs gst group gold hgl hgo hgd]

/-- C6 applied at a concrete input: a live cached payee arriving deleted
moves only the deleted counter. -/
theorem deletion_transition_counts_once_witness :
    lookupById (fun p => p.id) sampleRespPayeeDeleted.id [samplePayee] =
      some samplePayee ∧
    (mergePayeeStep ([samplePayee], initPayeeStats) sampleRespPayeeDeleted).2 =
      { initPayeeStats with deleted := initPayeeStats.deleted + 1 } ∧
    (mergeGroupStep ([sampleGroup], initCatStats) sampleRespGroupDeleted).2 =
      { initCatStats with deleted_groups := initCatStats.deleted_groups + 1 } := by
  have h := deletion_transition_counts_once
    [samplePayee] initPayeeStats sampleRespPayeeDeleted samplePayee
    (by decide) (by decide) (by decide)
    "A" [sampleCat] initCatStats sampleRespCatDeleted sampleCat
    (by decide) (by decide) (by decide)
    [sampleGroup] initCatStats sampleRespGroupDeleted sampleGroup
    (by decide) (by decide) (by decide)
  exact ⟨by decide, h.1, h.2.2⟩

/-- C7 counterexample: an unlink failure does not propagate out of
deleteCache: the call returns the ordinary value false, the same value
reported for a record that never existed. -/
theorem delete_cache_error_swallowed_counterexample :
    deleteCache true (Except.error "EIO") = false ∧
    deleteCache false (Except.ok ()) = false :=
  ⟨rfl, rfl⟩

/-- C7 amended: deleteCache never propagates an I/O error: any unlink
error is caught (and logged) and the call reports false; in the
error-free case it returns true exactly when the record existed. -/
theorem delete_cache_swallows_errors (b : Bool) (e : String) :
    deleteCache b (Except.error e) = false ∧
    deleteCache b (Except.ok ()) = b := by
  cases b <;> exact ⟨rfl, rfl⟩

/-- C8: loading a missing or unparseable cache file yields none rather
than raising, and a sync over such a file state returns the same result
as a first sync with no cache file; on a successful remote call the
full response becomes the cache and stats.new counts the non-deleted
response records. -/
theorem corrupt_cache_full_resync (fs : FileState PayeesCache)
    (remote : Option Nat → Except String PayeesResponse) (now : String)
    (h : readCache fs = none) :
    (syncPayees fs remote now).1 = (syncPayees FileState.missing remote now).1 ∧
    (∀ resp, remote none = Except.ok resp →
      syncPayees fs remote now =
        (Except.ok (syncPayeesPure none resp now),
          FileState.stored (syncPayeesPure none resp now).1) ∧
      (syncPayeesPure none resp now).2.new =
        (resp.payees.filter (fun p => !p.deleted)).length) := by
  constructor
  · have hm : readCache (FileState.missing : FileState PayeesCache) = none := rfl
    dsimp only [syncPayees]
    rw [h, hm]
    cases hr : remote (Option.map (fun c : PayeesCache => c.server_knowledge) none) with
    | error e => rfl
    | ok resp => rfl
  · intro resp hresp
    refine ⟨?_, rfl⟩
    dsimp only [syncPayees]
    rw [h]
    show (match remote none with
      | Except.error e => (Except.error e, fs)
      | Except.ok resp =>
        (Except.ok (syncPayeesPure none resp now),
          FileState.stored (syncPayeesPure none resp now).1)) = _
    rw [hresp]

/-- C8 applied at a concrete input: syncing over a corrupt cache file
performs a full first sync. -/
theorem corrupt_cache_full_resync_witness :
    readCache (FileState.corrupt : FileState PayeesCache) = none ∧
    syncPayees FileState.corrupt
        (fun _ => Except.ok { server_knowledge := 7, payees := [sampleRespPayee] })
        "t1" =
      (Except.ok (syncPayeesPure none
          { server_knowledge := 7, payees := [sampleRespPayee] } "t1"),
        FileState.stored (syncPayeesPure none
          { server_knowledge := 7, payees := [sampleRespPayee] } "t1").1) := by
  refine ⟨rfl, ?_⟩
  exact ((corrupt_cache_full_resync FileState.corrupt
    (fun _ => Except.ok { server_knowledge := 7, payees := [sampleRespPayee] })
    "t1" rfl).2 _ rfl).1

/-- C9: searchByName never returns a deleted record (for categories:
nor a hidden one), membership is exactly case-insensitive substring
matching of the query against the name (for categories: name or the
denormalized group name), and two queries equal after lowercasing give
identical result lists. -/
theorem search_by_name_correct (pc : PayeesCache) (cc : CategoriesCache)
    (q1 q2 : String) (h : jsToLower q1 = jsToLower q2) :
    (∀ p, p ∈ searchPayeesInCache pc q1 ↔
      p ∈ pc.payees ∧ p.deleted = false ∧
        jsIncludes (jsToLower p.name) (jsToLower q1) = true) ∧
    searchPayeesInCache pc q1 = searchPayeesInCache pc q2 ∧
    (∀ c, c ∈ searchCategoriesInCache cc q1 ↔
      c ∈ cc.categories ∧ c.deleted = false ∧ c.hidden = false ∧
        (jsIncludes (jsToLower c.name) (jsToLower q1) ||
          jsIncludes (jsToLower c.category_group_name) (jsToLower q1)) = true) ∧
    searchCategoriesInCache cc q1 = searchCategoriesInCache cc q2 := by
  refine ⟨?_, ?_, ?_, ?_⟩
  · intro p
    simp [searchPayeesInCache, List.mem_filter, and_assoc]
    tauto
  · unfold searchPayeesInCache
    rw [h]
  · intro c
    simp [searchCategoriesInCache, List.mem_filter, and_assoc]
    tauto
  · unfold searchCategoriesInCache
    rw [h]

/-- C9 applied at a concrete input: an upper-case and a lower-case query
return the same results, which exclude deleted records. -/
theorem search_by_name_correct_witness :
    jsToLower "AMAZON" = jsToLower "amazon" ∧
    searchPayeesInCache sampleCache "AMAZON" =
      searchPayeesInCache sampleCache "amazon" := by
  refine ⟨by decide, ?_⟩
  exact (search_by_name_correct sampleCache sampleCatCache "AMAZON" "amazon"
    (by decide)).2.1

/-- C10: each incoming record moves at most one of the three delta
counters, so a whole merge sync moves the counter sum by at most the
number of incoming records (payees; categories and groups each against
their own counter triple); and an incoming deleted record whose cached
counterpart is already deleted moves no counter at all while the cached
record is still overwritten with the incoming version. -/
theorem counters_mutually_exclusive
    (acc : List CachedPayee × SyncStats) (payee0 : RespPayee)
    (ex : PayeesCache) (resp : PayeesResponse)
    (cex : CategoriesCache) (cresp : CategoriesResponse) (now : String)
    (ps : List CachedPayee) (st : SyncStats) (payee : RespPayee)
    (old : CachedPayee)
    (h : lookupById (fun p => p.id) payee.id ps = some old)
    (ho : old.deleted = true) (hp : payee.deleted = true) :
    statSum (mergePayeeStep acc payee0).2 ≤ statSum acc.2 + 1 ∧
    statSum (syncPayeesPure (some ex) resp now).2 ≤ resp.payees.length ∧
    catStatSum (syncCategoriesPure (some cex) cresp now).2 ≤
      (respCategoryPairs cresp).length ∧
    groupStatSum (syncCategoriesPure (some cex) cresp now).2 ≤
      cresp.category_groups.length ∧
    (mergePayeeStep (ps, st) payee).2 = st ∧
    lookupById (fun p => p.id) payee.id (mergePayeeStep (ps, st) payee).1 =
      some (toCachedPayee payee) := by
  refine ⟨statSum_mergePayeeStep acc payee0, ?_, ?_, ?_, ?_, ?_⟩
  · have hb := statSum_foldl_mergePayeeStep resp.payees ex.payees initPayeeStats
    have he : statSum (syncPayeesPure (some ex) resp now).2 =
        statSum ((resp.payees.foldl mergePayeeStep
          (ex.payees, initPayeeStats)).2) := rfl
    rw [he]
    simpa [statSum, initPayeeStats] using hb
  · have hb := catStatSum_foldl_mergeGroupAndCats cresp.category_groups
      cex.category_groups cex.categories initCatStats
    have he : catStatSum (syncCategoriesPure (some cex) cresp now).2 =
        catStatSum ((cresp.category_groups.foldl mergeGroupAndCats
          (cex.category_groups, cex.categories, initCatStats)).2.2) := rfl
    rw [he]
    simpa [catStatSum, initCatStats] using hb
  · have hb := groupStatSum_foldl_mergeGroupAndCats cresp.category_groups
      cex.category_groups cex.categories initCatStats
    have he : groupStatSum (syncCategoriesPure (some cex) cresp now).2 =
        groupStatSum ((cresp.category_groups.foldl mergeGroupAndCats
          (cex.category_groups, cex.categories, initCatStats)).2.2) := rfl
    rw [he]
    simpa [groupStatSum, initCatStats] using hb
  · rw [mergePayeeStep_tombstone ps st payee old h ho hp]
  · rw [mergePayeeStep_tombstone ps st payee old h ho hp]
    exact lookupById_findReplace_self (fun p => p.id) (toCachedPayee payee) ps

/-- C10 applied at a concrete input: a deleted incoming record over an
already-deleted cached record moves no counter, and a merge sync over a
one-record response moves the counter sum by at most one. -/
theorem counters_mutually_exclusive_witness :
    lookupById (fun p => p.id) sampleRespPayeeDeleted.id [samplePayeeDeleted] =
      some samplePayeeDeleted ∧
    (mergePayeeStep ([samplePayeeDeleted], initPayeeStats)
        sampleRespPayeeDeleted).2 = initPayeeStats ∧
    statSum (syncPayeesPure (some sampleCache) deletedOnlyResp "t1").2 ≤
      deletedOnlyResp.payees.length := by
  have h := counters_mutually_exclusive ([], initPayeeStats) sampleRespPayee
    sampleCache deletedOnlyResp sampleCatCache renameOnlyResp "t1"
    [samplePayeeDeleted] initPayeeStats sampleRespPayeeDeleted
    samplePayeeDeleted (by decide) (by decide) (by decide)
  exact ⟨by decide, h.2.2.2.2.1, h.2.1⟩

end YnabSpec
